import Mathlib

/-!
Shallow embedding of `filtrate/filters.py` (django-admin-filtrate).

Python strings are modelled as `List Char`; the request query string as an
association list of key/value pairs; Django querysets as lists of records,
with `queryset.filter(**kwargs)` and `queryset.exclude(**kwargs)` modelled as
list filtering on the corresponding predicate.  Fallible code returns
`Except Str _`.
-/

/-- Python strings are modelled as lists of characters. -/
abbrev Str := List Char

/-- A scalar value stored in a record field: either an integer or a string. -/
inductive PyScalar where
  | intV (n : Int)
  | strV (s : Str)
deriving DecidableEq, Repr

/-- A database record: a total assignment of scalar values to field names.
Querysets are lists of records. -/
structure Record where
  fields : Str → PyScalar

/-- Dictionary lookup on the request parameters (`params.get(key)` /
`request.GET[key]`); Django's MultiValueDict returns the last value stored
under a key, so we look from the right. -/
def getParam (params : List (Str × Str)) (k : Str) : Option Str :=
  (params.reverse.find? (fun p => p.1 = k)).map Prod.snd

/-- Django ORM model: `queryset.filter(**{key: value})` with a scalar value
keeps exactly the records whose `key` field equals the value. -/
def djangoFilterEq (queryset : List Record) (key : Str) (v : PyScalar) :
    List Record :=
  queryset.filter (fun r => r.fields key = v)

/-- Django ORM model: `queryset.filter(**{key: ids})` with a list of integer
ids keeps exactly the records whose `key` field is among the ids. -/
def djangoFilterIn (queryset : List Record) (key : Str) (ids : List Int) :
    List Record :=
  queryset.filter (fun r => r.fields key ∈ ids.map PyScalar.intV)

/-- Django ORM model: `queryset.exclude(**kwargs)` keeps exactly the records
that do NOT match the keyword arguments. -/
def djangoExcludeIn (queryset : List Record) (key : Str) (ids : List Int) :
    List Record :=
  queryset.filter (fun r => r.fields key ∉ ids.map PyScalar.intV)

/-- Embedding of `SimpleListFilter.value()` (framework): the stored query parameter for
`parameter_name`, or `None` when the request did not carry it. -/
def filter_value (parameter_name : Str) (params : List (Str × Str)) :
    Option Str :=
  getParam params parameter_name

/-- Embedding of `FiltrateFilter.queryset` (filters.py lines 85-93): identity when the
filter's value is `None`, otherwise an equality filter on `parameter_name`. -/
def filtrateFilter_queryset (parameter_name : Str) (params : List (Str × Str))
    (queryset : List Record) : List Record :=
  match filter_value parameter_name params with
  | none => queryset
  | some value => djangoFilterEq queryset parameter_name (PyScalar.strV value)

/-- Embedding of `TreeFilter.INCLUDE` (filters.py line 182). -/
def TreeFilter.INCLUDE : Int := 1

/-- Embedding of `TreeFilter.EXCLUDE` (filters.py line 183). -/
def TreeFilter.EXCLUDE : Int := 2

/-- The keyword used in the ORM query: `parameter_name` when `query_name` is
`None`, else `query_name` (filters.py line 269). -/
def treeQueryField (parameter_name : Str) (query_name : Option Str) : Str :=
  match query_name with
  | none => parameter_name
  | some q => q

/-- Embedding of `TreeFilter.queryset` (filters.py lines 265-276): empty selection returns
the queryset unchanged; otherwise INCLUDE filters and EXCLUDE excludes on the
query field, and any other mode raises. -/
def treeFilter_queryset (parameter_name : Str) (query_name : Option Str)
    (query_mode : Int) (selected_nodes : List Int)
    (queryset : List Record) : Except Str (List Record) :=
  if selected_nodes = [] then
    .ok queryset
  else
    let qn := treeQueryField parameter_name query_name
    if query_mode = TreeFilter.INCLUDE then
      .ok (djangoFilterIn queryset qn selected_nodes)
    else if query_mode = TreeFilter.EXCLUDE then
      .ok (djangoExcludeIn queryset qn selected_nodes)
    else
      .error ("Unknown query_mode given.".data)

/-- C1: include mode filters to records whose query field is among the
selected ids; exclude mode keeps exactly the complement, with the same
keyword arguments. -/
theorem treeFilter_queryset_include_exclude
    (parameter_name : Str) (query_name : Option Str)
    (sel : List Int) (qs : List Record) (h : sel ≠ []) :
    treeFilter_queryset parameter_name query_name TreeFilter.INCLUDE sel qs =
      .ok (djangoFilterIn qs (treeQueryField parameter_name query_name) sel) ∧
    treeFilter_queryset parameter_name query_name TreeFilter.EXCLUDE sel qs =
      .ok (djangoExcludeIn qs (treeQueryField parameter_name query_name) sel) ∧
    (∀ r, r ∈ djangoFilterIn qs (treeQueryField parameter_name query_name) sel ↔
      r ∈ qs ∧
        r.fields (treeQueryField parameter_name query_name) ∈
          sel.map PyScalar.intV) ∧
    (∀ r, r ∈ djangoExcludeIn qs (treeQueryField parameter_name query_name) sel ↔
      r ∈ qs ∧
        r.fields (treeQueryField parameter_name query_name) ∉
          sel.map PyScalar.intV) := by
  refine ⟨?_, ?_, ?_, ?_⟩
  · simp [treeFilter_queryset, h, TreeFilter.INCLUDE]
  · simp [treeFilter_queryset, h, TreeFilter.INCLUDE, TreeFilter.EXCLUDE]
  · intro r
    simp [djangoFilterIn]
  · intro r
    simp [djangoExcludeIn]

/-- Witness for the include/exclude theorem at a concrete input. -/
theorem treeFilter_queryset_include_exclude_witness :
    ([(3 : Int), 5] ≠ ([] : List Int)) ∧
    (treeFilter_queryset ("dept_id".data) none TreeFilter.INCLUDE [3, 5] [] =
        .ok (djangoFilterIn [] (treeQueryField ("dept_id".data) none) [3, 5]) ∧
      treeFilter_queryset ("dept_id".data) none TreeFilter.EXCLUDE [3, 5] [] =
        .ok (djangoExcludeIn [] (treeQueryField ("dept_id".data) none) [3, 5]) ∧
      (∀ r, r ∈ djangoFilterIn [] (treeQueryField ("dept_id".data) none) [3, 5] ↔
        r ∈ ([] : List Record) ∧
          r.fields (treeQueryField ("dept_id".data) none) ∈
            ([3, 5] : List Int).map PyScalar.intV) ∧
      (∀ r, r ∈ djangoExcludeIn [] (treeQueryField ("dept_id".data) none) [3, 5] ↔
        r ∈ ([] : List Record) ∧
          r.fields (treeQueryField ("dept_id".data) none) ∉
            ([3, 5] : List Int).map PyScalar.intV)) :=
  ⟨by decide,
    treeFilter_queryset_include_exclude ("dept_id".data) none [3, 5] []
      (by decide)⟩

/-- C8: with a non-empty selection, an unrecognized query mode raises the
"Unknown query_mode given." exception and yields no queryset. -/
theorem treeFilter_queryset_unknown_mode
    (parameter_name : Str) (query_name : Option Str) (query_mode : Int)
    (sel : List Int) (qs : List Record) (hsel : sel ≠ [])
    (h1 : query_mode ≠ TreeFilter.INCLUDE)
    (h2 : query_mode ≠ TreeFilter.EXCLUDE) :
    treeFilter_queryset parameter_name query_name query_mode sel qs =
      .error ("Unknown query_mode given.".data) := by
  simp [treeFilter_queryset, hsel, h1, h2]

/-- Witness for the unknown-mode theorem at mode 3. -/
theorem treeFilter_queryset_unknown_mode_witness :
    ([(7 : Int)] ≠ ([] : List Int)) ∧ ((3 : Int) ≠ TreeFilter.INCLUDE) ∧
    ((3 : Int) ≠ TreeFilter.EXCLUDE) ∧
    treeFilter_queryset ("dept_id".data) none 3 [7] [] =
      .error ("Unknown query_mode given.".data) :=
  ⟨by decide, by decide, by decide,
    treeFilter_queryset_unknown_mode ("dept_id".data) none 3 [7] []
      (by decide) (by decide) (by decide)⟩

/-- True exactly on the ASCII digit characters 0-9. -/
def isDigitCh (c : Char) : Bool := 48 ≤ c.toNat && c.toNat ≤ 57

/-- Model of Python `int()` on an unsigned decimal literal: all characters
must be digits and there must be at least one; the value is read left to
right. -/
def parseDigits (cs : Str) : Option Nat :=
  if cs.isEmpty then none
  else if cs.all isDigitCh then
    some (cs.foldl (fun a c => a * 10 + (c.toNat - 48)) 0)
  else none

/-- Model of Python `int()` on a decimal literal with an optional leading
minus sign; `none` models the ValueError raised on malformed input. -/
def pyInt (cs : Str) : Option Int :=
  if cs.head? = some '-' then (parseDigits cs.tail).map (fun n => -(n : Int))
  else (parseDigits cs).map (fun n => (n : Int))

/-- Model of Python `str.split(',')`: splits at every comma, keeping empty
chunks ("".split(',') is ['']). -/
def splitOnComma : Str → List Str
  | [] => [[]]
  | c :: rest =>
    match splitOnComma rest with
    | [] => [[]]
    | s :: ss => if c = ',' then [] :: s :: ss else (c :: s) :: ss

/-- Model of Python `list(map(int, chunks))`: parses every chunk as an
integer, `none` when any chunk fails to parse. -/
def mapIntList : List Str → Option (List Int)
  | [] => some []
  | c :: rest =>
    match pyInt c, mapIntList rest with
    | some n, some l => some (n :: l)
    | _, _ => none

/-- Embedding of `TreeFilter.__init__` lines 190-195: `selected_nodes` is
`list(map(int, value.split(',')))` when the parameter value is present and
`[]` when it is `None`; a chunk `int()` cannot parse raises ValueError. -/
def treeFilter_selected_nodes (value : Option Str) : Except Str (List Int) :=
  match value with
  | none => .ok []
  | some s =>
    match mapIntList (splitOnComma s) with
    | some l => .ok l
    | none => .error ("ValueError".data)

/-- Canonical decimal rendering of a natural number, most significant digit
first. -/
def natToChars (n : Nat) : Str :=
  if n < 10 then [Char.ofNat (48 + n)]
  else natToChars (n / 10) ++ [Char.ofNat (48 + n % 10)]
termination_by n
decreasing_by exact Nat.div_lt_self (by omega) (by omega)

/-- Canonical decimal rendering of an integer (minus sign for negatives). -/
def intToChars : Int → Str
  | .ofNat n => natToChars n
  | .negSucc n => '-' :: natToChars (n + 1)

/-- Joins chunks with a single comma between consecutive chunks (the inverse
direction of `splitOnComma`). -/
def joinComma : List Str → Str
  | [] => []
  | [x] => x
  | x :: y :: rest => x ++ ',' :: joinComma (y :: rest)

/-- The comma-separated rendering of a list of integers, as the query string
carries it. -/
def encodeInts (ns : List Int) : Str := joinComma (ns.map intToChars)

theorem digit_toNat : ∀ d, d < 10 → (Char.ofNat (48 + d)).toNat = 48 + d := by
  decide

theorem isDigitCh_digit : ∀ d, d < 10 → isDigitCh (Char.ofNat (48 + d)) = true := by
  decide

theorem natToChars_all_digits (n : Nat) :
    (natToChars n).all isDigitCh = true := by
  induction n using Nat.strong_induction_on with
  | _ n ih =>
    rw [natToChars]
    by_cases h : n < 10
    · rw [if_pos h]
      simp [isDigitCh_digit n h]
    · rw [if_neg h, List.all_append, Bool.and_eq_true]
      constructor
      · exact ih (n / 10) (Nat.div_lt_self (by omega) (by omega))
      · simp [isDigitCh_digit (n % 10) (Nat.mod_lt _ (by omega))]

theorem natToChars_ne_nil (n : Nat) : natToChars n ≠ [] := by
  rw [natToChars]
  by_cases h : n < 10 <;> simp [h]

theorem natToChars_foldl (n : Nat) : ∀ a : Nat,
    (natToChars n).foldl (fun a c => a * 10 + (c.toNat - 48)) a =
      a * 10 ^ (natToChars n).length + n := by
  induction n using Nat.strong_induction_on with
  | _ n ih =>
    intro a
    rw [natToChars]
    by_cases h : n < 10
    · rw [if_pos h]
      simp only [List.foldl_cons, List.foldl_nil, List.length_cons,
        List.length_nil, pow_one]
      rw [digit_toNat n h]
      omega
    · rw [if_neg h]
      have hm : n % 10 < 10 := Nat.mod_lt _ (by omega)
      rw [List.foldl_append, ih (n / 10) (Nat.div_lt_self (by omega) (by omega)) a]
      simp only [List.foldl_cons, List.foldl_nil, List.length_append,
        List.length_cons, List.length_nil]
      rw [digit_toNat (n % 10) hm]
      have hds : 48 + n % 10 - 48 = n % 10 := by omega
      rw [hds, pow_succ]
      calc (a * 10 ^ (natToChars (n / 10)).length + n / 10) * 10 + n % 10
          = a * (10 ^ (natToChars (n / 10)).length * 10) +
              (n / 10 * 10 + n % 10) := by ring
        _ = a * (10 ^ (natToChars (n / 10)).length * 10) + n := by
            rw [Nat.div_add_mod']

theorem parseDigits_natToChars (n : Nat) :
    parseDigits (natToChars n) = some n := by
  rw [parseDigits, if_neg (by simp [natToChars_ne_nil n]),
    if_pos (natToChars_all_digits n)]
  rw [natToChars_foldl n 0]
  simp

theorem natToChars_head_not_minus (n : Nat) :
    (natToChars n).head? ≠ some '-' := by
  have hall := natToChars_all_digits n
  intro hc
  cases hl : natToChars n with
  | nil => rw [hl] at hc; simp at hc
  | cons c rest =>
    rw [hl] at hc
    simp only [List.head?_cons, Option.some.injEq] at hc
    rw [hl, List.all_cons, Bool.and_eq_true] at hall
    rw [hc] at hall
    exact absurd hall.1 (by decide)

theorem pyInt_intToChars (i : Int) : pyInt (intToChars i) = some i := by
  cases i with
  | ofNat n =>
    rw [intToChars, pyInt, if_neg (natToChars_head_not_minus n),
      parseDigits_natToChars]
    rfl
  | negSucc n =>
    rw [intToChars, pyInt,
      if_pos (show (('-' : Char) :: natToChars (n + 1)).head? = some '-' from
        rfl)]
    simp only [List.tail_cons]
    rw [parseDigits_natToChars]
    simp [Int.negSucc_eq]

theorem splitOnComma_ne_nil (l : Str) : splitOnComma l ≠ [] := by
  cases l with
  | nil => simp [splitOnComma]
  | cons c rest =>
    rw [splitOnComma]
    cases h : splitOnComma rest with
    | nil => simp
    | cons s ss => by_cases hc : c = ',' <;> simp [hc]

theorem splitOnComma_no_comma (cs : Str) (h : ',' ∉ cs) :
    splitOnComma cs = [cs] := by
  induction cs with
  | nil => rfl
  | cons c rest ih =>
    have hc : c ≠ ',' := fun hh => h (hh ▸ List.mem_cons_self _ _)
    have hr : ',' ∉ rest := fun hh => h (List.mem_cons_of_mem _ hh)
    rw [splitOnComma, ih hr]
    simp [hc]

theorem splitOnComma_append (xs rest : Str) (h : ',' ∉ xs) :
    splitOnComma (xs ++ ',' :: rest) = xs :: splitOnComma rest := by
  induction xs with
  | nil =>
    simp only [List.nil_append]
    rw [splitOnComma]
    cases hr : splitOnComma rest with
    | nil => exact absurd hr (splitOnComma_ne_nil rest)
    | cons s ss => simp
  | cons c xs2 ih =>
    have hc : c ≠ ',' := fun hh => h (hh ▸ List.mem_cons_self _ _)
    have hx : ',' ∉ xs2 := fun hh => h (List.mem_cons_of_mem _ hh)
    simp only [List.cons_append]
    rw [splitOnComma, ih hx]
    simp [hc]

theorem splitOnComma_joinComma : ∀ chunks : List Str, chunks ≠ [] →
    (∀ c ∈ chunks, ',' ∉ c) → splitOnComma (joinComma chunks) = chunks := by
  intro chunks
  induction chunks with
  | nil => intro hne _; exact absurd rfl hne
  | cons x rest ih =>
    intro _ h
    cases rest with
    | nil =>
      rw [joinComma]
      exact splitOnComma_no_comma x (h x (by simp))
    | cons y rest2 =>
      rw [joinComma, splitOnComma_append x _ (h x (by simp))]
      rw [ih (by simp) (fun c hc => h c (List.mem_cons_of_mem _ hc))]

theorem comma_not_in_natToChars (n : Nat) : ',' ∉ natToChars n := by
  intro hmem
  have hall := natToChars_all_digits n
  rw [List.all_eq_true] at hall
  exact absurd (hall ',' hmem) (by decide)

theorem comma_not_in_intToChars (i : Int) : ',' ∉ intToChars i := by
  cases i with
  | ofNat n => exact comma_not_in_natToChars n
  | negSucc n =>
    simp only [intToChars]
    intro hmem
    rcases List.mem_cons.mp hmem with h | h
    · exact absurd h (by decide)
    · exact comma_not_in_natToChars _ h

theorem mapIntList_intToChars (ns : List Int) :
    mapIntList (ns.map intToChars) = some ns := by
  induction ns with
  | nil => rfl
  | cons n rest ih =>
    rw [List.map_cons, mapIntList, pyInt_intToChars n, ih]

/-- C3: for every non-empty integer list, supplying its comma-separated
rendering as the query parameter parses back to exactly that list, duplicates
and order preserved; an absent parameter yields the empty selection. -/
theorem treeFilter_selected_nodes_parse (ns : List Int) (h : ns ≠ []) :
    treeFilter_selected_nodes (some (encodeInts ns)) = .ok ns ∧
    treeFilter_selected_nodes none = .ok [] := by
  constructor
  · rw [treeFilter_selected_nodes, encodeInts]
    rw [splitOnComma_joinComma (ns.map intToChars) (by simpa using h)
      (by
        intro c hc
        rcases List.mem_map.mp hc with ⟨i, _, rfl⟩
        exact comma_not_in_intToChars i)]
    rw [mapIntList_intToChars]
  · rfl

/-- Witness for the selection parsing theorem: duplicates and order kept. -/
theorem treeFilter_selected_nodes_parse_witness :
    ([(3 : Int), 5, 3] ≠ ([] : List Int)) ∧
    (treeFilter_selected_nodes (some (encodeInts [3, 5, 3])) = .ok [3, 5, 3] ∧
      treeFilter_selected_nodes none = .ok []) :=
  ⟨by decide, treeFilter_selected_nodes_parse [3, 5, 3] (by decide)⟩

/-- C2: when the request's query parameters do not contain the filter's key,
the base filter's value is None and its queryset translation is the identity,
and the tree filter's selection state is empty so its queryset translation is
the identity as well. -/
theorem queryset_identity_param_absent
    (parameter_name : Str) (query_name : Option Str) (query_mode : Int)
    (params : List (Str × Str)) (qs : List Record)
    (h : ∀ p ∈ params, p.1 ≠ parameter_name) :
    filter_value parameter_name params = none ∧
    filtrateFilter_queryset parameter_name params qs = qs ∧
    treeFilter_selected_nodes (filter_value parameter_name params) = .ok [] ∧
    treeFilter_queryset parameter_name query_name query_mode [] qs = .ok qs := by
  have hv : filter_value parameter_name params = none := by
    have hf : params.reverse.find? (fun p => p.1 = parameter_name) = none := by
      rw [List.find?_eq_none]
      intro p hp
      simp [h p (List.mem_reverse.mp hp)]
    rw [filter_value, getParam, hf]
    rfl
  refine ⟨hv, ?_, ?_, ?_⟩
  · rw [filtrateFilter_queryset, hv]
  · rw [hv]
    rfl
  · simp [treeFilter_queryset]

/-- Witness for the identity-on-absent-key theorem. -/
theorem queryset_identity_param_absent_witness :
    (∀ p ∈ [(("page".data : Str), ("2".data : Str))],
        p.1 ≠ ("dept_id".data : Str)) ∧
    (filter_value ("dept_id".data) [("page".data, "2".data)] = none ∧
      filtrateFilter_queryset ("dept_id".data) [("page".data, "2".data)] [] = [] ∧
      treeFilter_selected_nodes
        (filter_value ("dept_id".data) [("page".data, "2".data)]) = .ok [] ∧
      treeFilter_queryset ("dept_id".data) none TreeFilter.INCLUDE [] [] =
        .ok []) :=
  ⟨by decide,
    queryset_identity_param_absent ("dept_id".data) none TreeFilter.INCLUDE
      [("page".data, "2".data)] [] (by decide)⟩

/-- A Python runtime value occurring in a caller-supplied tree node: either a
tuple — with a flag recording whether its runtime type is exactly `tuple`
(`type(node) == type(tuple())`) or a proper subclass — or a plain object.
`pk` is the value of the object's `pk` attribute when it has one, and
`strRepr` the string `force_str`/`str()` produces for it. -/
inductive PyVal where
  | tup (exact : Bool) (pk : Option Int) (strRepr : Str) (elems : List PyVal)
  | obj (pk : Option Int) (strRepr : Str)

/-- JSON values. `TreeFilter._tree_to_json` returns `json.dumps` of a list
of dicts; the output is modelled at this structural level, with the
`dumps`/parse round trip of the standard json library taken as the identity
on it. -/
inductive JVal where
  | jstr (s : Str)
  | jint (n : Int)
  | jbool (b : Bool)
  | jarr (xs : List JVal)
  | jobj (fields : List (Str × JVal))

/-- Embedding of `force_str(node)`: the string representation of a node. -/
def pyStr : PyVal → Str
  | .tup _ _ s _ => s
  | .obj _ s => s

/-- Embedding of `node.pk` as an attribute lookup: `none` models a missing attribute
(plain tuples have no `pk`). -/
def nodePk : PyVal → Option Int
  | .tup _ pk _ _ => pk
  | .obj pk _ => pk

/-- The dict appended for a leaf node (filters.py lines 219-225): its `attr`
carries `obj_id` and the `is_selected` membership flag, and `data` carries
the node's string representation. -/
def leaf_json (selected_nodes : List Int) (pk : Int) (title : Str) : JVal :=
  .jobj [("attr".data,
          .jobj [("obj_id".data, .jint pk),
                 ("is_selected".data,
                  .jbool (decide (pk ∈ selected_nodes)))]),
         ("data".data, .jstr title)]

/-- The leaf branch of `parse_tree` (lines 216-225): reads `node.pk` —
raising AttributeError when the node has none — and appends the leaf dict
before continuing with the rest of the sibling list. -/
def leaf_step (selected_nodes : List Int) (pk : Option Int) (title : Str)
    (restRes : Except Str (List JVal)) : Except Str (List JVal) :=
  match pk with
  | some p => do
      let js ← restRes
      pure (leaf_json selected_nodes p title :: js)
  | none => .error ("AttributeError".data)

/-- The inner `parse_tree` of `TreeFilter._tree_to_json` (lines 205-225):
walks the sibling list depth first.  A node whose runtime type is exactly
`tuple` is a parent: its first element is the label, its second the children
sequence (IndexError if the tuple has fewer than two elements, TypeError if
the second element is not iterable); any other node is a leaf. -/
def parse_tree (selected_nodes : List Int) :
    List PyVal → Except Str (List JVal)
  | [] => .ok []
  | .obj pk s :: rest =>
      leaf_step selected_nodes pk s (parse_tree selected_nodes rest)
  | .tup false pk s _ :: rest =>
      leaf_step selected_nodes pk s (parse_tree selected_nodes rest)
  | .tup true _ _ [] :: _ => .error ("IndexError".data)
  | .tup true _ _ [_] :: _ => .error ("IndexError".data)
  | .tup true _ _ (_ :: .obj _ _ :: _) :: _ => .error ("TypeError".data)
  | .tup true _ _ (e0 :: .tup _ _ _ children :: _) :: rest => do
      let cs ← parse_tree selected_nodes children
      let js ← parse_tree selected_nodes rest
      pure (.jobj [("data".data, .jstr (pyStr e0)),
                   ("children".data, .jarr cs)] :: js)

/-- Embedding of `TreeFilter._tree_to_json` (lines 202-229): runs `parse_tree` on the
caller-supplied tree; the `json.dumps` of the result is modelled as the
structure itself. -/
def tree_to_json (selected_nodes : List Int) (tree : List PyVal) :
    Except Str (List JVal) :=
  parse_tree selected_nodes tree

/-- The nesting skeleton of a tree: a node is a leaf or a group of child
shapes, siblings kept in order. -/
inductive Shape where
  | leaf : Shape
  | group (children : List Shape) : Shape

/-- The trees `parse_tree` serializes without raising: every exact tuple has
a label and an iterable (tuple) children sequence, and every leaf node
carries a `pk` attribute. -/
def WFTree : List PyVal → Bool
  | [] => true
  | .obj pk _ :: rest => pk.isSome && WFTree rest
  | .tup false pk _ _ :: rest => pk.isSome && WFTree rest
  | .tup true _ _ [] :: _ => false
  | .tup true _ _ [_] :: _ => false
  | .tup true _ _ (_ :: .obj _ _ :: _) :: _ => false
  | .tup true _ _ (_ :: .tup _ _ _ children :: _) :: rest =>
      WFTree children && WFTree rest

/-- The nesting skeleton of an input sibling list (meaningful on trees
satisfying `WFTree`). -/
def shapeOfTree : List PyVal → List Shape
  | [] => []
  | .obj _ _ :: rest => .leaf :: shapeOfTree rest
  | .tup false _ _ _ :: rest => .leaf :: shapeOfTree rest
  | .tup true _ _ [] :: _ => []
  | .tup true _ _ [_] :: _ => []
  | .tup true _ _ (_ :: .obj _ _ :: _) :: _ => []
  | .tup true _ _ (_ :: .tup _ _ _ children :: _) :: rest =>
      .group (shapeOfTree children) :: shapeOfTree rest

/-- The primary keys of the leaves of an input sibling list in depth-first
order (meaningful on trees satisfying `WFTree`). -/
def leafPks : List PyVal → List Int
  | [] => []
  | .obj pk _ :: rest => pk.toList ++ leafPks rest
  | .tup false pk _ _ :: rest => pk.toList ++ leafPks rest
  | .tup true _ _ [] :: _ => []
  | .tup true _ _ [_] :: _ => []
  | .tup true _ _ (_ :: .obj _ _ :: _) :: _ => []
  | .tup true _ _ (_ :: .tup _ _ _ children :: _) :: rest =>
      leafPks children ++ leafPks rest

/-- Re-reads the nesting skeleton out of the serialized JSON: an object
whose second field is a `children` array is a group, anything else a leaf. -/
def jShapeList : List JVal → List Shape
  | [] => []
  | .jobj ((_, .jstr _) :: (_, .jarr xs) :: _) :: rest =>
      .group (jShapeList xs) :: jShapeList rest
  | _ :: rest => .leaf :: jShapeList rest

/-- Re-reads the leaves out of the serialized JSON in depth-first order:
each leaf contributes its `obj_id` and `is_selected` attribute values. -/
def jLeavesList : List JVal → List (Int × Bool)
  | [] => []
  | .jobj ((_, .jobj ((_, .jint pk) :: (_, .jbool b) :: _)) :: _) :: rest =>
      (pk, b) :: jLeavesList rest
  | .jobj ((_, .jstr _) :: (_, .jarr xs) :: _) :: rest =>
      jLeavesList xs ++ jLeavesList rest
  | _ :: rest => jLeavesList rest

theorem parse_tree_wf_spec (sel : List Int) : ∀ l : List PyVal,
    WFTree l = true →
    ∃ out, parse_tree sel l = .ok out ∧
      jShapeList out = shapeOfTree l ∧
      jLeavesList out = (leafPks l).map (fun pk => (pk, decide (pk ∈ sel))) := by
  intro l
  induction l using parse_tree.induct sel with
  | case1 =>
    intro _
    exact ⟨[], by simp [parse_tree], by simp [jShapeList, shapeOfTree],
      by simp [jLeavesList, leafPks]⟩
  | case2 pk s rest ih =>
    intro h
    rw [WFTree, Bool.and_eq_true] at h
    obtain ⟨hpk, hrest⟩ := h
    obtain ⟨p, hp⟩ := Option.isSome_iff_exists.mp hpk
    obtain ⟨out, hout, hsh, hlv⟩ := ih hrest
    refine ⟨leaf_json sel p s :: out, ?_, ?_, ?_⟩
    · simp [parse_tree, leaf_step, hp, hout]
    · simp [jShapeList, leaf_json, shapeOfTree, hsh]
    · simp [jLeavesList, leaf_json, leafPks, hp, hlv]
  | case3 pk s elems rest ih =>
    intro h
    rw [WFTree, Bool.and_eq_true] at h
    obtain ⟨hpk, hrest⟩ := h
    obtain ⟨p, hp⟩ := Option.isSome_iff_exists.mp hpk
    obtain ⟨out, hout, hsh, hlv⟩ := ih hrest
    refine ⟨leaf_json sel p s :: out, ?_, ?_, ?_⟩
    · simp [parse_tree, leaf_step, hp, hout]
    · simp [jShapeList, leaf_json, shapeOfTree, hsh]
    · simp [jLeavesList, leaf_json, leafPks, hp, hlv]
  | case4 pk s rest =>
    intro h
    rw [WFTree] at h
    exact absurd h (by decide)
  | case5 pk s e0 rest =>
    intro h
    rw [WFTree] at h
    exact absurd h (by decide)
  | case6 p1 s1 e0 p2 s2 more rest =>
    intro h
    rw [WFTree] at h
    exact absurd h (by decide)
  | case7 p1 s1 e0 ex p2 s2 children more rest ihc ihr =>
    intro h
    rw [WFTree, Bool.and_eq_true] at h
    obtain ⟨hch, hrest⟩ := h
    obtain ⟨outc, houtc, hshc, hlvc⟩ := ihc hch
    obtain ⟨outr, houtr, hshr, hlvr⟩ := ihr hrest
    refine ⟨.jobj [("data".data, .jstr (pyStr e0)),
                   ("children".data, .jarr outc)] :: outr, ?_, ?_, ?_⟩
    · simp [parse_tree, houtc, houtr]
      rfl
    · simp [jShapeList, shapeOfTree, hshc, hshr]
    · simp [jLeavesList, leafPks, hlvc, hlvr]

/-- Demonstration tree for the serialization witnesses: a top-level leaf and
an exact tuple whose children sequence holds one leaf. -/
def demoTree : List PyVal :=
  [ .obj (some 3) ("alice".data),
    .tup true none ("grp".data)
      [ .obj none ("Group".data),
        .tup true none ("kids".data) [ .obj (some 5) ("bob".data) ] ] ]

/-- C5: tree serialization is structure preserving: for every well-formed
nested tuple tree and every selection, serialization succeeds and reading
the nesting skeleton back out of the (re-parsed) JSON structure yields
exactly the input's nesting with the same sibling order, traversed depth
first. -/
theorem tree_to_json_shape (sel : List Int) (tree : List PyVal)
    (h : WFTree tree = true) :
    ∃ out, tree_to_json sel tree = .ok out ∧
      jShapeList out = shapeOfTree tree := by
  obtain ⟨out, hout, hsh, _⟩ := parse_tree_wf_spec sel tree h
  exact ⟨out, hout, hsh⟩

/-- Witness for the structure-preservation theorem on the demo tree. -/
theorem tree_to_json_shape_witness :
    (WFTree demoTree = true) ∧
    (∃ out, tree_to_json [3] demoTree = .ok out ∧
      jShapeList out = shapeOfTree demoTree) :=
  ⟨by simp [WFTree, demoTree],
    tree_to_json_shape [3] demoTree (by simp [WFTree, demoTree])⟩

/-- C4: for every well-formed tree and selection, the serialized leaves in
depth-first order are exactly the input leaves, each carrying an
`is_selected` flag that is true iff its pk is in the selection; with an
empty selection every flag is false. -/
theorem tree_to_json_selected_flags (sel : List Int) (tree : List PyVal)
    (h : WFTree tree = true) :
    ∃ out, tree_to_json sel tree = .ok out ∧
      jLeavesList out = (leafPks tree).map (fun pk => (pk, decide (pk ∈ sel))) ∧
      (∀ p ∈ jLeavesList out, (p.2 = true ↔ p.1 ∈ sel)) ∧
      (sel = [] → ∀ p ∈ jLeavesList out, p.2 = false) := by
  obtain ⟨out, hout, _, hlv⟩ := parse_tree_wf_spec sel tree h
  refine ⟨out, hout, hlv, ?_, ?_⟩
  · intro p hp
    rw [hlv] at hp
    rcases List.mem_map.mp hp with ⟨pk, _, rfl⟩
    simp
  · rintro rfl p hp
    rw [hlv] at hp
    rcases List.mem_map.mp hp with ⟨pk, _, rfl⟩
    simp

/-- Witness for the selected-flags theorem on the demo tree. -/
theorem tree_to_json_selected_flags_witness :
    (WFTree demoTree = true) ∧
    (∃ out, tree_to_json [3] demoTree = .ok out ∧
      jLeavesList out =
        (leafPks demoTree).map (fun pk => (pk, decide (pk ∈ ([3] : List Int)))) ∧
      (∀ p ∈ jLeavesList out, (p.2 = true ↔ p.1 ∈ ([3] : List Int))) ∧
      (([3] : List Int) = [] → ∀ p ∈ jLeavesList out, p.2 = false)) :=
  ⟨by simp [WFTree, demoTree],
    tree_to_json_selected_flags [3] demoTree (by simp [WFTree, demoTree])⟩

/-- C10: a node is serialized as internal exactly when its runtime type is
exactly `tuple`: a tuple-subclass instance goes through the leaf branch —
serialized from its `pk` and string representation with its elements
ignored, and failing with AttributeError when it lacks a `pk`; for an exact
tuple only the first two elements are used, further elements being ignored;
and a non-tuple node without a `pk` attribute fails serialization. -/
theorem tree_to_json_type_dispatch (sel : List Int) :
    (∀ pk s elems, tree_to_json sel [.tup false (some pk) s elems] =
        .ok [leaf_json sel pk s]) ∧
    (∀ s elems, tree_to_json sel [.tup false none s elems] =
        .error ("AttributeError".data)) ∧
    (∀ p1 s1 e0 ex p2 s2 children extra rest,
        tree_to_json sel
            (.tup true p1 s1 (e0 :: .tup ex p2 s2 children :: extra) :: rest) =
          tree_to_json sel
            (.tup true p1 s1 [e0, .tup ex p2 s2 children] :: rest)) ∧
    (∀ s, tree_to_json sel [.obj none s] = .error ("AttributeError".data)) ∧
    (∀ p1 s1 e0 ex p2 s2,
        tree_to_json sel [.tup true p1 s1 [e0, .tup ex p2 s2 []]] =
          .ok [.jobj [("data".data, .jstr (pyStr e0)),
                      ("children".data, .jarr [])]]) := by
  refine ⟨?_, ?_, ?_, ?_, ?_⟩
  · intro pk s elems
    simp [tree_to_json, parse_tree, leaf_step]
  · intro s elems
    simp [tree_to_json, parse_tree, leaf_step]
  · intro p1 s1 e0 ex p2 s2 children extra rest
    simp [tree_to_json, parse_tree]
  · intro s
    simp [tree_to_json, parse_tree, leaf_step]
  · intro p1 s1 e0 ex p2 s2
    simp [tree_to_json, parse_tree]
    rfl

/-- The literal format string of `_form_duplicate_getparams` (line 50)
instantiated at a name and a value: one hidden input element. -/
def hidden_input (name : Str) (value : Str) : Str :=
  "<input type=\"hidden\" name=\"".data ++ name ++
    "\" value=\"".data ++ value ++ "\"/>".data

/-- Embedding of `FiltrateFilter._form_duplicate_getparams` (lines 48-56): appends the
fixed pagination key 'e' to the omitted fields, then joins one hidden input
per current GET key that is not omitted, with the value `request.GET[k]`
returns. -/
def form_duplicate_getparams (omitted_fields : List Str)
    (request_GET : List (Str × Str)) : Str :=
  (((request_GET.map Prod.fst).filter
      (fun k => decide (k ∉ omitted_fields ++ [("e".data : Str)]))).map
    (fun k => hidden_input k ((getParam request_GET k).getD []))).flatten

theorem getParam_cons_self (k v : Str) (rest : List (Str × Str))
    (hk : k ∉ rest.map Prod.fst) : getParam ((k, v) :: rest) k = some v := by
  have h1 : rest.reverse.find? (fun p => p.1 = k) = none := by
    rw [List.find?_eq_none]
    intro p hp
    have hmem : p.1 ∈ rest.map Prod.fst :=
      List.mem_map_of_mem Prod.fst (List.mem_reverse.mp hp)
    simp only [decide_eq_true_eq]
    exact fun he => hk (he ▸ hmem)
  rw [getParam, List.reverse_cons, List.find?_append, h1]
  simp [List.find?]

theorem getParam_cons_ne (k v : Str) (rest : List (Str × Str)) (a : Str)
    (ha : a ≠ k) : getParam ((k, v) :: rest) a = getParam rest a := by
  have h2 : [(k, v)].find? (fun p => p.1 = a) = none := by
    simp [List.find?, ha.symm]
  rw [getParam, getParam, List.reverse_cons, List.find?_append, h2]
  cases rest.reverse.find? (fun p => p.1 = a) <;> rfl

theorem echo_fields_eq (omitted_fields : List Str) :
    ∀ request_GET : List (Str × Str), (request_GET.map Prod.fst).Nodup →
    ((request_GET.map Prod.fst).filter
        (fun k => decide (k ∉ omitted_fields ++ [("e".data : Str)]))).map
      (fun k => hidden_input k ((getParam request_GET k).getD [])) =
    (request_GET.filter
        (fun p => decide (p.1 ∉ omitted_fields ∧ p.1 ≠ ("e".data : Str)))).map
      (fun p => hidden_input p.1 p.2) := by
  intro request_GET
  induction request_GET with
  | nil => intro _; rfl
  | cons p rest ih =>
    intro h
    obtain ⟨k, v⟩ := p
    rw [List.map_cons, List.nodup_cons] at h
    obtain ⟨hk, hrest⟩ := h
    have hmapeq :
        ((rest.map Prod.fst).filter
            (fun a => decide (a ∉ omitted_fields ++ [("e".data : Str)]))).map
          (fun a => hidden_input a ((getParam ((k, v) :: rest) a).getD [])) =
        ((rest.map Prod.fst).filter
            (fun a => decide (a ∉ omitted_fields ++ [("e".data : Str)]))).map
          (fun a => hidden_input a ((getParam rest a).getD [])) := by
      apply List.map_congr_left
      intro a ha
      have hmem := (List.mem_filter.mp ha).1
      have hne : a ≠ k := fun he => hk (he ▸ hmem)
      rw [getParam_cons_ne k v rest a hne]
    rw [List.map_cons, List.filter_cons, List.filter_cons]
    by_cases hin : k ∈ omitted_fields ++ [("e".data : Str)]
    · have hd1 : decide (k ∉ omitted_fields ++ [("e".data : Str)]) = false := by
        simp [hin]
      have hd2 : decide (k ∉ omitted_fields ∧ k ≠ ("e".data : Str)) = false := by
        rw [List.mem_append, List.mem_singleton] at hin
        simp only [decide_eq_false_iff_not]
        tauto
      rw [hd1, hd2]
      simp only [if_neg Bool.false_ne_true]
      rw [hmapeq, ih hrest]
    · have hd1 : decide (k ∉ omitted_fields ++ [("e".data : Str)]) = true := by
        simp [hin]
      have hd2 : decide (k ∉ omitted_fields ∧ k ≠ ("e".data : Str)) = true := by
        rw [List.mem_append, List.mem_singleton] at hin
        simp only [decide_eq_true_eq]
        push_neg at hin
        exact hin
      rw [hd1, hd2]
      simp only [eq_self_iff_true, if_true]
      rw [List.map_cons, List.map_cons, getParam_cons_self k v rest hk]
      simp only [Option.getD_some]
      rw [hmapeq, ih hrest]

/-- C7: when the request's query keys are distinct, the echo helper emits
exactly one hidden input per query parameter whose key is neither among the
caller-omitted fields nor the fixed pagination key 'e', in request order,
each carrying the parameter's key and its original value — and nothing for
the omitted keys. -/
theorem form_duplicate_getparams_spec (omitted_fields : List Str)
    (request_GET : List (Str × Str))
    (h : (request_GET.map Prod.fst).Nodup) :
    form_duplicate_getparams omitted_fields request_GET =
      ((request_GET.filter
          (fun p => decide (p.1 ∉ omitted_fields ∧ p.1 ≠ ("e".data : Str)))).map
        (fun p => hidden_input p.1 p.2)).flatten := by
  rw [form_duplicate_getparams, echo_fields_eq omitted_fields request_GET h]

/-- Witness for the echo-helper theorem: keys page, q, e with q omitted. -/
theorem form_duplicate_getparams_spec_witness :
    ((([(("page".data : Str), ("2".data : Str)),
        (("q".data : Str), ("x".data : Str)),
        (("e".data : Str), ("1".data : Str))]).map Prod.fst).Nodup) ∧
    form_duplicate_getparams [("q".data : Str)]
        [(("page".data : Str), ("2".data : Str)),
         (("q".data : Str), ("x".data : Str)),
         (("e".data : Str), ("1".data : Str))] =
      ((([(("page".data : Str), ("2".data : Str)),
          (("q".data : Str), ("x".data : Str)),
          (("e".data : Str), ("1".data : Str))]).filter
          (fun p => decide (p.1 ∉ [("q".data : Str)] ∧
            p.1 ≠ ("e".data : Str)))).map
        (fun p => hidden_input p.1 p.2)).flatten :=
  ⟨by decide,
    form_duplicate_getparams_spec [("q".data : Str)]
      [(("page".data : Str), ("2".data : Str)),
       (("q".data : Str), ("x".data : Str)),
       (("e".data : Str), ("1".data : Str))] (by decide)⟩

/-- A static asset declaration (a `class Media`): script URLs and style URLs
(the single `all` stylesheet medium used by this repository). -/
structure MediaDecl where
  js : List Str
  css : List Str
deriving DecidableEq, Repr

/-- Framework model of `django.forms.widgets.Media` combination: the left
operand's assets first, then the right operand's assets not already
present — an order-preserving union, left operand taking precedence. -/
def mediaListMerge (a b : List Str) : List Str :=
  a ++ b.filter (fun x => decide (x ∉ a))

/-- Embedding of `Media.__add__` applied to both media types. -/
def mediaAdd (a b : MediaDecl) : MediaDecl :=
  ⟨mediaListMerge a.js b.js, mediaListMerge a.css b.css⟩

/-- The `FiltrateFilter.Media` declaration (filters.py lines 34-36). -/
def filtrateFilterMedia : MediaDecl :=
  ⟨["filtrate/js/filtrate.js".data], ["filtrate/css/filtrate.css".data]⟩

/-- The part of the shared model_admin object that `_add_media` touches:
the js and css attributes of its `Media` class.  The model_admin outlives
any single request, so this state persists across requests. -/
structure ModelAdmin where
  mediaDecl : MediaDecl
deriving DecidableEq

/-- Embedding of `FiltrateFilter._add_media` (lines 38-46): computes
`Media(model_admin) + Media(FiltrateFilter) + Media(self)` and overwrites
every media type attribute on `model_admin.Media` with the result; the
mutation is modelled by returning the updated model_admin. -/
def add_media (model_admin : ModelAdmin) (instance_media : MediaDecl) :
    ModelAdmin :=
  ⟨mediaAdd (mediaAdd model_admin.mediaDecl filtrateFilterMedia)
    instance_media⟩

/-- Embedding of `FiltrateFilter.__init__` (lines 25-32): calls `_add_media` on the
shared model_admin first; its effect on the model_admin is exactly the
media overwrite. -/
def filtrateFilter_init (model_admin : ModelAdmin)
    (instance_media : MediaDecl) : ModelAdmin :=
  add_media model_admin instance_media

/-- C9: constructing any filter instance overwrites, for every media type,
the shared model_admin's Media attribute with the merged media of the
model_admin, the FiltrateFilter base class and the filter instance, in that
precedence order; the overwrite persists on the model_admin, as an admin
that declared no assets of its own shows. -/
theorem filtrateFilter_init_mutates_media
    (model_admin : ModelAdmin) (instance_media : MediaDecl) :
    ((filtrateFilter_init model_admin instance_media).mediaDecl.js =
        mediaListMerge
          (mediaListMerge model_admin.mediaDecl.js filtrateFilterMedia.js)
          instance_media.js ∧
      (filtrateFilter_init model_admin instance_media).mediaDecl.css =
        mediaListMerge
          (mediaListMerge model_admin.mediaDecl.css filtrateFilterMedia.css)
          instance_media.css) ∧
    (filtrateFilter_init ⟨⟨[], []⟩⟩ ⟨[], []⟩).mediaDecl ≠ ⟨[], []⟩ := by
  refine ⟨⟨rfl, rfl⟩, ?_⟩
  decide

/-- Embedding of `DateRangeFilter._get_form` (line 117): the name of the from-bound
query parameter and form field. -/
def dateRange_from_name (parameter_name : Str) : Str :=
  parameter_name ++ "__gte".data

/-- Embedding of `DateRangeFilter._get_form` (line 118): the name of the to-bound query
parameter and form field. -/
def dateRange_to_name (parameter_name : Str) : Str :=
  parameter_name ++ "__lte".data

/-- A date-range predicate: an optional greater-or-equal bound and an
optional less-or-equal bound on the target field. -/
structure DateBounds where
  gte : Option Str
  lte : Option Str
deriving DecidableEq, Repr

/-- Modelled from the spec: the repository's `_get_form` only names the
`<field>__gte` / `<field>__lte` query parameters and echoes their current
values; the host framework's admin changelist turns the submitted
parameters of those names into the corresponding keyword filters.  The
resulting predicate is the pair of bounds read from the request. -/
def dateRangePredicate (parameter_name : Str) (get : List (Str × Str)) :
    DateBounds :=
  ⟨getParam get (dateRange_from_name parameter_name),
   getParam get (dateRange_to_name parameter_name)⟩

/-- Lexicographic comparison of strings, standing in for the backing date
field's ordering when the bounds are applied. -/
def strLeChars : Str → Str → Bool
  | [], _ => true
  | _ :: _, [] => false
  | a :: as, b :: bs => if a = b then strLeChars as bs else decide (a.toNat < b.toNat)

/-- Ordering on record field values: integers by their order, strings
lexicographically, incomparable kinds false. -/
def scalarLe (a b : PyScalar) : Bool :=
  match a, b with
  | .intV m, .intV n => decide (m ≤ n)
  | .strV s, .strV t => strLeChars s t
  | _, _ => false

/-- Modelled from the spec: applying the date-range predicate to a
queryset — each present bound filters on the target field, an absent bound
leaves that half out. -/
def applyDateBounds (parameter_name : Str) (b : DateBounds)
    (queryset : List Record) : List Record :=
  let afterFrom :=
    match b.gte with
    | none => queryset
    | some v =>
        queryset.filter (fun r => scalarLe (.strV v) (r.fields parameter_name))
  match b.lte with
  | none => afterFrom
  | some w =>
      afterFrom.filter (fun r => scalarLe (r.fields parameter_name) (.strV w))

/-- C6: with only the from parameter present the date-range predicate
carries only the greater-or-equal bound; with both present it carries both
bounds; with neither present it is empty and applying it is the identity
transform. -/
theorem dateRange_bounds (parameter_name : Str) (get : List (Str × Str))
    (qs : List Record) (v w : Str) :
    (getParam get (dateRange_from_name parameter_name) = some v →
      getParam get (dateRange_to_name parameter_name) = none →
      dateRangePredicate parameter_name get = ⟨some v, none⟩ ∧
      applyDateBounds parameter_name ⟨some v, none⟩ qs =
        qs.filter (fun r => scalarLe (.strV v) (r.fields parameter_name))) ∧
    (getParam get (dateRange_from_name parameter_name) = some v →
      getParam get (dateRange_to_name parameter_name) = some w →
      dateRangePredicate parameter_name get = ⟨some v, some w⟩ ∧
      applyDateBounds parameter_name ⟨some v, some w⟩ qs =
        (qs.filter
            (fun r => scalarLe (.strV v) (r.fields parameter_name))).filter
          (fun r => scalarLe (r.fields parameter_name) (.strV w))) ∧
    (getParam get (dateRange_from_name parameter_name) = none →
      getParam get (dateRange_to_name parameter_name) = none →
      dateRangePredicate parameter_name get = ⟨none, none⟩ ∧
      applyDateBounds parameter_name ⟨none, none⟩ qs = qs) := by
  refine ⟨?_, ?_, ?_⟩
  · intro hf ht
    exact ⟨by rw [dateRangePredicate, hf, ht], rfl⟩
  · intro hf ht
    exact ⟨by rw [dateRangePredicate, hf, ht], rfl⟩
  · intro hf ht
    exact ⟨by rw [dateRangePredicate, hf, ht], rfl⟩

/-- Witness for the date-range bounds theorem at concrete requests. -/
theorem dateRange_bounds_witness :
    (dateRangePredicate ("created".data)
        [(dateRange_from_name ("created".data), "2020-01-01".data)] =
      ⟨some ("2020-01-01".data), none⟩ ∧
      applyDateBounds ("created".data) ⟨some ("2020-01-01".data), none⟩ [] =
        ([] : List Record).filter
          (fun r => scalarLe (.strV ("2020-01-01".data))
            (r.fields ("created".data)))) ∧
    (dateRangePredicate ("created".data)
        [(dateRange_from_name ("created".data), "2020-01-01".data),
         (dateRange_to_name ("created".data), "2020-12-31".data)] =
      ⟨some ("2020-01-01".data), some ("2020-12-31".data)⟩) ∧
    (dateRangePredicate ("created".data) [] = ⟨none, none⟩ ∧
      applyDateBounds ("created".data) ⟨none, none⟩ [] = []) :=
  ⟨(dateRange_bounds ("created".data)
      [(dateRange_from_name ("created".data), "2020-01-01".data)] []
      ("2020-01-01".data) ("2020-12-31".data)).1 (by decide) (by decide),
   ((dateRange_bounds ("created".data)
      [(dateRange_from_name ("created".data), "2020-01-01".data),
       (dateRange_to_name ("created".data), "2020-12-31".data)] []
      ("2020-01-01".data) ("2020-12-31".data)).2.1 (by decide) (by decide)).1,
   (dateRange_bounds ("created".data) [] []
      ("2020-01-01".data) ("2020-12-31".data)).2.2 (by decide) (by decide)⟩
